import Mathlib

/-!
Shallow embedding of the planning core of pathvis-rs
(src/planning/world.rs and src/planning/astar.rs).

Modelling conventions:
* Rust `usize` becomes `Nat`; cell ids are `Nat` indices into a `List Cell`.
* Rust `f32` cost values are modelled by an arbitrary linearly ordered
  semiring `C` (exact rationals or reals are instances); the only f32
  operations the planner performs are additions and order comparisons on
  finite non-NaN values, so every theorem below holds for each such carrier
  at once, and concrete runs (whose cost values are all small integers,
  exactly representable in f32) are evaluated at `C = Int`.  The one
  function that needs a square root (`calc_euclidean_dist`) is kept as an
  explicit function parameter `eucl` of the search step, so every theorem
  below also holds for an arbitrary distance function.
* `Vec::pop` becomes `getLast?`/`dropLast`; `Vec::push` appends at the end;
  `iter().position(..)` becomes `List.findIdx?`; in-place slot assignment
  becomes `List.set`.
* Rust's stable `sort_by` with comparator `cost_b.partial_cmp(cost_a)`
  (descending by priority, ties keep their relative order) is modelled by
  Mathlib's stable `List.insertionSort` with the non-strict descending
  relation.
* `unwrap` calls that are unreachable for searches built by `from_cfg`
  are modelled by harmless defaults; every theorem whose meaning depends on
  such a branch carries the validity hypotheses that rule the branch out.
-/

namespace PathVis

/-- Cell ids are an alias for a flat index (`pub type Id = usize`).
The alias documents the correspondence; the definitions below use `Nat`
directly so that arithmetic automation sees the underlying type. -/
abbrev Id := Nat

deriving instance DecidableEq for Except

/-- Represent the state of a cell in the world (world.rs `enum Cell`);
`C` is the cost carrier standing in for `f32`. -/
inductive Cell (C : Type) where
  | Obstacle : Cell C
  | Open : Cell C
  | Visited (g h k : C) (parent : Nat) : Cell C
deriving DecidableEq

/-- A collection of cells defining a 2D world (world.rs `struct World`). -/
structure World (C : Type) where
  width : Nat
  height : Nat
  cells : List (Cell C)
deriving DecidableEq

variable {C : Type}

/-- A way to describe neighbor strategies (world.rs `enum Neighbors`). -/
inductive Neighbors where
  | Cardinal : Neighbors
  | CardinalAndDiagonal : Neighbors
deriving DecidableEq

/-- Neighbor directions (world.rs `enum Neighbor`). -/
inductive Neighbor where
  | N | NE | E | SE | S | SW | W | NW
deriving DecidableEq

/-- Iterator state for neighbor enumeration (world.rs `struct NeighborIter`).
The field `next` holds the direction the next call will emit. -/
structure NeighborIter where
  next : Option Neighbor
  strat : Neighbors
  x : Nat
  y : Nat
deriving DecidableEq

/-- `NeighborIter::new` : iteration always starts at East. -/
def NeighborIter.new (x y : Nat) (strat : Neighbors) : NeighborIter :=
  { next := some Neighbor.E, strat := strat, x := x, y := y }

/-- One call of `Iterator::next` for `NeighborIter` (world.rs lines 76-145).
Returns the emitted coordinate and the successor iterator state. -/
def NeighborIter.nextItem (it : NeighborIter) : Option ((Nat × Nat) × NeighborIter) :=
  match it.next with
  | none => none
  | some dir =>
    match dir with
    | Neighbor.E =>
        let nxt := match it.strat with
          | Neighbors.CardinalAndDiagonal => some Neighbor.SE
          | Neighbors.Cardinal => some Neighbor.S
        some ((it.x + 1, it.y), { it with next := nxt })
    | Neighbor.SE =>
        some ((it.x + 1, it.y + 1), { it with next := some Neighbor.S })
    | Neighbor.S =>
        let nxt :=
          if it.x = 0 ∧ it.y = 0 then none
          else if it.x = 0 then some Neighbor.N
          else match it.strat with
            | Neighbors.CardinalAndDiagonal => some Neighbor.SW
            | Neighbors.Cardinal => some Neighbor.W
        some ((it.x, it.y + 1), { it with next := nxt })
    | Neighbor.SW =>
        some ((it.x - 1, it.y + 1), { it with next := some Neighbor.W })
    | Neighbor.W =>
        let nxt :=
          if it.y = 0 then none
          else match it.strat with
            | Neighbors.CardinalAndDiagonal => some Neighbor.NW
            | Neighbors.Cardinal => some Neighbor.N
        some ((it.x - 1, it.y), { it with next := nxt })
    | Neighbor.NW =>
        some ((it.x - 1, it.y - 1), { it with next := some Neighbor.N })
    | Neighbor.N =>
        let nxt := match it.strat with
          | Neighbors.CardinalAndDiagonal => some Neighbor.NE
          | Neighbors.Cardinal => none
        some ((it.x, it.y - 1), { it with next := nxt })
    | Neighbor.NE =>
        some ((it.x + 1, it.y - 1), { it with next := none })

/-- Fuelled driver collecting the whole iterator output into a list. -/
def NeighborIter.toListAux : Nat → NeighborIter → List (Nat × Nat)
  | 0, _ => []
  | fuel + 1, it =>
    match it.nextItem with
    | none => []
    | some (c, it') => c :: NeighborIter.toListAux fuel it'

/-- The complete sequence a `NeighborIter` emits.  Fuel 9 is sufficient:
the direction chain E, SE, S, SW, W, NW, N, NE has length 8 and every
`nextItem` call strictly advances along it (`toListAux_stable` below). -/
def NeighborIter.toList (it : NeighborIter) : List (Nat × Nat) :=
  NeighborIter.toListAux 9 it

/-- How many emissions can still happen from a given direction state. -/
def Neighbor.rank : Neighbor → Nat
  | Neighbor.E => 8
  | Neighbor.SE => 7
  | Neighbor.S => 6
  | Neighbor.SW => 5
  | Neighbor.W => 4
  | Neighbor.NW => 3
  | Neighbor.N => 2
  | Neighbor.NE => 1

/-- Rank of an iterator state: 0 once exhausted. -/
def NeighborIter.rank (it : NeighborIter) : Nat :=
  match it.next with
  | none => 0
  | some d => d.rank

theorem NeighborIter.rank_le_eight (it : NeighborIter) : it.rank ≤ 8 := by
  cases h : it.next with
  | none => simp [NeighborIter.rank, h]
  | some d => cases d <;> simp [NeighborIter.rank, h, Neighbor.rank]

theorem NeighborIter.rank_lt_of_nextItem {it it' : NeighborIter} {c : Nat × Nat}
    (h : it.nextItem = some (c, it')) : it'.rank < it.rank := by
  cases hn : it.next with
  | none => simp [NeighborIter.nextItem, hn] at h
  | some d =>
    cases hs : it.strat <;> cases d <;>
      by_cases hx : it.x = 0 <;> by_cases hy : it.y = 0 <;>
        (simp only [NeighborIter.nextItem, hn, hs, hx, hy, if_true, if_false,
            and_self, and_true, true_and, and_false, false_and, ite_true, ite_false,
            Option.some.injEq, Prod.mk.injEq, eq_self_iff_true, not_true, not_false_iff,
            if_neg, Nat.zero_ne_one] at h <;>
         try simp only [if_pos, if_neg, hx, hy] at h) <;>
      (obtain ⟨-, rfl⟩ := h <;> simp [NeighborIter.rank, hn, Neighbor.rank])

/-- Any fuel at least the rank computes the same list: fuel 9 never truncates. -/
theorem NeighborIter.toListAux_stable :
    ∀ (n m : Nat) (it : NeighborIter), it.rank ≤ n → n ≤ m →
      NeighborIter.toListAux n it = NeighborIter.toListAux m it := by
  intro n
  induction n with
  | zero =>
    intro m it hr _
    have hnone : it.nextItem = none := by
      cases hn : it.next with
      | none => simp [NeighborIter.nextItem, hn]
      | some d =>
        exfalso
        have : it.rank = d.rank := by simp [NeighborIter.rank, hn]
        cases d <;> simp [Neighbor.rank, this] at hr <;> omega
    cases m with
    | zero => rfl
    | succ m => simp [NeighborIter.toListAux, hnone]
  | succ n ih =>
    intro m it hr hm
    cases m with
    | zero => omega
    | succ m =>
      cases hi : it.nextItem with
      | none => simp [NeighborIter.toListAux, hi]
      | some ci =>
        obtain ⟨c, it'⟩ := ci
        have hlt := NeighborIter.rank_lt_of_nextItem hi
        simp only [NeighborIter.toListAux, hi]
        rw [ih m it' (by omega) (by omega)]

/-- Error message of `World::new`. -/
def dimMismatchMsg : String := "Width and height do not match number of cells"

/-- `World::new` (world.rs lines 153-167). -/
def World.new (width height : Nat) (cells : List (Cell C)) : Except String (World C) :=
  if width * height ≠ cells.length then
    Except.error dimMismatchMsg
  else
    Except.ok { width := width, height := height, cells := cells }

/-- `World::coords_for` (world.rs lines 169-178). -/
def World.coords_for (w : World C) (id : Nat) : Option (Nat × Nat) :=
  if id < w.cells.length then
    let y := id / w.width
    let x := id - y * w.width
    some (x, y)
  else
    none

/-- `World::id_at` (world.rs lines 180-188). -/
def World.id_at (w : World C) (x y : Nat) : Option Nat :=
  let id := y * w.width + x
  if id < w.cells.length then some id else none

/-- `World::cell` (world.rs lines 215-218): `cells.get(id)`. -/
def World.cell (w : World C) (id : Nat) : Option (Cell C) :=
  w.cells.get? id

/-- `World::cell_at` (world.rs lines 200-208): resolve via `id_at`, then read. -/
def World.cell_at (w : World C) (x y : Nat) : Option (Cell C) :=
  match w.id_at x y with
  | some id => w.cells.get? id
  | none => none

/-- Functional counterpart of writing through `World::cell_mut(id)`. -/
def World.setCell (w : World C) (id : Nat) (c : Cell C) : World C :=
  { w with cells := w.cells.set id c }

/-- Functional counterpart of writing through `World::cell_at_mut(x, y)`:
resolve via `id_at`, then assign; out of range leaves the world unchanged
(in the source the caller checked presence first). -/
def World.setCellAt (w : World C) (x y : Nat) (c : Cell C) : World C :=
  match w.id_at x y with
  | some id => w.setCell id c
  | none => w

/-- `World::iter_neighbor_ids` (world.rs lines 220-226). -/
def World.iter_neighbor_ids (w : World C) (id : Nat) (strat : Neighbors) :
    Option NeighborIter :=
  match w.coords_for id with
  | some (x, y) => some (NeighborIter.new x y strat)
  | none => none

/-- astar.rs `enum Heuristic`. -/
inductive Heuristic where
  | Manhattan : Heuristic
  | Euclidean : Heuristic
deriving DecidableEq

/-- astar.rs `struct AStarCfg`. -/
structure AStarCfg where
  neighbors : Neighbors
  heuristic : Option Heuristic
  goal : Option Nat
  start : Option Nat
deriving DecidableEq

/-- astar.rs `struct AStar`.  `frontier` pairs a cell Id with its priority. -/
structure AStar (C : Type) where
  config : AStarCfg
  current : Option Nat
  frontier : List (Nat × C)
  world : World C
  prev_step : Nat
deriving DecidableEq

/-- `AStarCfg::new`. -/
def AStarCfg.new : AStarCfg :=
  { neighbors := Neighbors.Cardinal, heuristic := none, goal := none, start := none }

/-- `AStarCfg::with_goal`. -/
def AStarCfg.with_goal (cfg : AStarCfg) (id : Nat) : AStarCfg :=
  { cfg with goal := some id }

/-- `AStarCfg::with_start`. -/
def AStarCfg.with_start (cfg : AStarCfg) (id : Nat) : AStarCfg :=
  { cfg with start := some id }

/-- `AStarCfg::with_hueristic` (source spelling). -/
def AStarCfg.with_hueristic (cfg : AStarCfg) (h : Option Heuristic) : AStarCfg :=
  { cfg with heuristic := h }

/-- `AStarCfg::with_neighbors`. -/
def AStarCfg.with_neighbors (cfg : AStarCfg) (n : Neighbors) : AStarCfg :=
  { cfg with neighbors := n }

/-- Error messages of `AStarCfg::valid_for`. -/
def invalidGoalMsg : String := "Invalid goal"

def missingGoalMsg : String := "Must specify goal point"

def invalidStartMsg : String := "Invalid start"

def missingStartMsg : String := "Must specify start point"

/-- `AStarCfg::valid_for` (astar.rs lines 73-92): goal checked first, then
start; each must be set and must resolve through `coords_for`.  The function
reads the config and the world and mutates neither (it is a pure function of
the pair here, as in the source, which takes both by shared reference). -/
def AStarCfg.valid_for (cfg : AStarCfg) (world : World C) : Except String Unit :=
  match cfg.goal with
  | none => Except.error missingGoalMsg
  | some goal =>
    if world.coords_for goal = none then Except.error invalidGoalMsg
    else
      match cfg.start with
      | none => Except.error missingStartMsg
      | some start =>
        if world.coords_for start = none then Except.error invalidStartMsg
        else Except.ok ()

/-- `calc_manhattan_dist` (astar.rs lines 103-107); exact on `usize`. -/
def calc_manhattan_dist (a b : Nat × Nat) : Nat :=
  (max a.1 b.1 - min a.1 b.1) + (max a.2 b.2 - min a.2 b.2)

/-- Edge cost of moving to a neighbor (the match in astar.rs lines 172-176):
under `CardinalAndDiagonal` the f32 Euclidean distance (kept as the function
parameter `eucl`), under `Cardinal` the constant 1. -/
def edge_cost [LinearOrderedSemiring C] (eucl : Nat × Nat → Nat × Nat → C)
    (strat : Neighbors) (xy myCoord : Nat × Nat) : C :=
  match strat with
  | Neighbors.CardinalAndDiagonal => eucl xy myCoord
  | Neighbors.Cardinal => 1

/-- Heuristic of a cell (the match in astar.rs lines 178-184), computed
against the start coordinate. -/
def heur_val [LinearOrderedSemiring C] (eucl : Nat × Nat → Nat × Nat → C)
    (h : Option Heuristic) (xy goalCoord : Nat × Nat) : C :=
  match h with
  | some Heuristic.Euclidean => eucl xy goalCoord
  | some Heuristic.Manhattan => (calc_manhattan_dist xy goalCoord : C)
  | none => 0

/-- Frontier insertion (astar.rs lines 212-221): linear scan by Id; update
the existing slot in place when present, push at the end otherwise. -/
def frontierUpsert (frontier : List (Nat × C)) (id : Nat) (cost : C) :
    List (Nat × C) :=
  match frontier.findIdx? (fun p => p.1 == id) with
  | some idx => frontier.set idx (id, cost)
  | none => frontier ++ [(id, cost)]

/-- Body of the neighbor loop of `AStar::step` (astar.rs lines 165-222),
acting on the (world, frontier) pair.  `myCoord`, `goalCoord`, `myCost` and
`next` are the values fixed before the loop. -/
def relaxNeighbor [LinearOrderedSemiring C]
    (eucl : Nat × Nat → Nat × Nat → C) (cfg : AStarCfg)
    (myCoord goalCoord : Nat × Nat) (myCost : C) (next : Nat)
    (st : World C × List (Nat × C)) (xy : Nat × Nat) :
    World C × List (Nat × C) :=
  let world := st.1
  let frontier := st.2
  let x := xy.1
  let y := xy.2
  match world.cell_at x y with
  | none => (world, frontier)
  | some Cell.Obstacle => (world, frontier)
  | some c =>
    let new_cost : C := edge_cost eucl cfg.neighbors (x, y) myCoord + myCost
    let new_heur : C := heur_val eucl cfg.heuristic (x, y) goalCoord
    let new_cell : Cell C := Cell.Visited new_cost new_heur 0 next
    match c with
    | Cell.Visited g _ _ _ =>
      if g > new_cost then
        (world.setCellAt x y new_cell,
         frontierUpsert frontier ((world.id_at x y).getD 0) (new_heur + new_cost))
      else
        (world, frontier)
    | Cell.Open =>
      (world.setCellAt x y new_cell,
       frontierUpsert frontier ((world.id_at x y).getD 0) (new_heur + new_cost))
    | _ => (world, frontier)

/-- Non-strict descending order on frontier entries; this is the total
preorder of the source comparator `cost_b.partial_cmp(cost_a)` (all
priorities are finite, never NaN). -/
def frontier_ge [LinearOrder C] (a b : Nat × C) : Prop := b.2 ≤ a.2

instance [LinearOrder C] : DecidableRel (frontier_ge (C := C)) :=
  fun a b => inferInstanceAs (Decidable (b.2 ≤ a.2))

instance [LinearOrder C] : IsTotal (Nat × C) frontier_ge :=
  ⟨fun a b => le_total b.2 a.2⟩

instance [LinearOrder C] : IsTrans (Nat × C) frontier_ge :=
  ⟨fun _ _ _ hab hbc => le_trans hbc hab⟩

/-- The frontier sort of astar.rs lines 224-228: a stable sort by descending
priority (ties keep their relative order, as with the source's stable
`sort_by`). -/
def sortFrontier [LinearOrder C] (frontier : List (Nat × C)) :
    List (Nat × C) :=
  List.insertionSort frontier_ge frontier

/-- `AStar::from_cfg` (astar.rs lines 111-122): validity gate, then the
initial state.  Note the world is stored unchanged; the goal cell is only
marked by the first `step` call. -/
def AStar.from_cfg (cfg : AStarCfg) (world : World C) :
    Except String (AStar C) :=
  match cfg.valid_for world with
  | Except.error e => Except.error e
  | Except.ok _ =>
    Except.ok
      { config := cfg, current := none, frontier := [], world := world,
        prev_step := 0 }

/-- `AStar::step` (astar.rs lines 124-232).  Branches that are `unwrap`
panics in the source (config fields unset or ids out of range, impossible
for searches built by `from_cfg`) return `(none, s)` unchanged here. -/
def AStar.step [LinearOrderedSemiring C]
    (eucl : Nat × Nat → Nat × Nat → C) (s : AStar C) :
    Option Nat × AStar C :=
  match s.config.goal with
  | none => (none, s)
  | some goal =>
    let sel : Option (Nat × AStar C) :=
      match s.current with
      | none =>
        some (goal,
          { s with world := s.world.setCell goal (Cell.Visited 0 0 0 goal) })
      | some _ =>
        match s.frontier.getLast? with
        | some (id, _) => some (id, { s with frontier := s.frontier.dropLast })
        | none => none
    match sel with
    | none => (none, s)
    | some (next, s1) =>
      match s.config.start with
      | none => (none, s1)
      | some start =>
        if next = start then (none, s1)
        else
          match s1.world.coords_for next, s1.world.coords_for start with
          | some my_coord, some goal_coord =>
            let my_cost : C :=
              match s1.world.cell next with
              | some (Cell.Visited g _ _ _) => g
              | _ => 0
            match s1.world.iter_neighbor_ids next s.config.neighbors with
            | none => (none, s1)
            | some it =>
              let wf :=
                it.toList.foldl
                  (relaxNeighbor eucl s.config my_coord goal_coord my_cost next)
                  (s1.world, s1.frontier)
              let s2 : AStar C :=
                { s1 with
                  world := wf.1
                  frontier := sortFrontier wf.2
                  current := some next
                  prev_step := s1.prev_step + 1 }
              (some s2.prev_step, s2)
          | _, _ => (none, s1)

/-! ### Complete characterization of the neighbor enumeration -/

theorem toList_card_int (x y : Nat) :
    (NeighborIter.new (x + 1) (y + 1) Neighbors.Cardinal).toList =
      [(x + 2, y + 1), (x + 1, y + 2), (x, y + 1), (x + 1, y)] := by
  simp [NeighborIter.toList, NeighborIter.toListAux, NeighborIter.nextItem,
    NeighborIter.new]

theorem toList_card_left (y : Nat) :
    (NeighborIter.new 0 (y + 1) Neighbors.Cardinal).toList =
      [(1, y + 1), (0, y + 2), (0, y)] := by
  simp [NeighborIter.toList, NeighborIter.toListAux, NeighborIter.nextItem,
    NeighborIter.new]

theorem toList_card_top (x : Nat) :
    (NeighborIter.new (x + 1) 0 Neighbors.Cardinal).toList =
      [(x + 2, 0), (x + 1, 1), (x, 0)] := by
  simp [NeighborIter.toList, NeighborIter.toListAux, NeighborIter.nextItem,
    NeighborIter.new]

theorem toList_card_corner :
    (NeighborIter.new 0 0 Neighbors.Cardinal).toList = [(1, 0), (0, 1)] := by
  simp [NeighborIter.toList, NeighborIter.toListAux, NeighborIter.nextItem,
    NeighborIter.new]

theorem toList_diag_int (x y : Nat) :
    (NeighborIter.new (x + 1) (y + 1) Neighbors.CardinalAndDiagonal).toList =
      [(x + 2, y + 1), (x + 2, y + 2), (x + 1, y + 2), (x, y + 2), (x, y + 1),
       (x, y), (x + 1, y), (x + 2, y)] := by
  simp [NeighborIter.toList, NeighborIter.toListAux, NeighborIter.nextItem,
    NeighborIter.new]

theorem toList_diag_left (y : Nat) :
    (NeighborIter.new 0 (y + 1) Neighbors.CardinalAndDiagonal).toList =
      [(1, y + 1), (1, y + 2), (0, y + 2), (0, y), (1, y)] := by
  simp [NeighborIter.toList, NeighborIter.toListAux, NeighborIter.nextItem,
    NeighborIter.new]

theorem toList_diag_top (x : Nat) :
    (NeighborIter.new (x + 1) 0 Neighbors.CardinalAndDiagonal).toList =
      [(x + 2, 0), (x + 2, 1), (x + 1, 1), (x, 1), (x, 0)] := by
  simp [NeighborIter.toList, NeighborIter.toListAux, NeighborIter.nextItem,
    NeighborIter.new]

theorem toList_diag_corner :
    (NeighborIter.new 0 0 Neighbors.CardinalAndDiagonal).toList =
      [(1, 0), (1, 1), (0, 1)] := by
  simp [NeighborIter.toList, NeighborIter.toListAux, NeighborIter.nextItem,
    NeighborIter.new]

/-! ### Concrete fixtures used by counterexamples and witnesses -/

/-- A 4x4 all-open world, matching the `mkworld` of the world.rs tests. -/
def w44 : World Int :=
  { width := 4, height := 4, cells := List.replicate 16 Cell.Open }

/-- Distance function instance for concrete runs; the runs below use the
`Cardinal` strategy with heuristic `none`, so it is never consulted. -/
def euclid0 : Nat × Nat → Nat × Nat → Int := fun _ _ => 0

/-- A 2x2 all-open world. -/
def w22o : World Int :=
  { width := 2, height := 2, cells := List.replicate 4 Cell.Open }

/-- Config: goal at id 0, start at id 1, Cardinal, no heuristic. -/
def cfg22 : AStarCfg := (AStarCfg.new.with_goal 0).with_start 1

/-- The search state `from_cfg cfg22 w22o` produces. -/
def s0 : AStar Int :=
  { config := cfg22, current := none, frontier := [], world := w22o, prev_step := 0 }

/-- A 2x1 world whose goal cell (id 0) is an obstacle. -/
def wob : World Int :=
  { width := 2, height := 1, cells := [Cell.Obstacle, Cell.Open] }

/-- Config for `wob`: goal at the obstacle id 0, start at id 1. -/
def cfgob : AStarCfg := (AStarCfg.new.with_goal 0).with_start 1

/-- The search state `from_cfg cfgob wob` produces. -/
def sob : AStar Int :=
  { config := cfgob, current := none, frontier := [], world := wob, prev_step := 0 }

/-! ### Small helper lemmas about World conversions -/

theorem coords_for_eq_none_iff (w : World C) (id : Nat) :
    w.coords_for id = none ↔ w.cells.length ≤ id := by
  by_cases h : id < w.cells.length
  · simp only [World.coords_for, if_pos h]
    simp
    omega
  · simp only [World.coords_for, if_neg h]
    simp
    omega

theorem coords_for_isSome_iff (w : World C) (id : Nat) :
    (w.coords_for id).isSome ↔ id < w.cells.length := by
  by_cases h : id < w.cells.length <;> simp [World.coords_for, h]

/-! ### Claims about the neighbor enumeration -/

/-- Claim C8 (confirmed): on an interior cell the enumerator emits exactly
East, South, West, North in this order under `Cardinal`, and exactly East,
Southeast, South, Southwest, West, Northwest, North, Northeast in this order
under `CardinalAndDiagonal`. -/
theorem neighbor_interior_exact (w : World C) (x y : Nat)
    (hx : 0 < x) (hy : 0 < y) (hxw : x < w.width - 1) (hyh : y < w.height - 1) :
    (NeighborIter.new x y Neighbors.Cardinal).toList =
      [(x + 1, y), (x, y + 1), (x - 1, y), (x, y - 1)] ∧
    (NeighborIter.new x y Neighbors.CardinalAndDiagonal).toList =
      [(x + 1, y), (x + 1, y + 1), (x, y + 1), (x - 1, y + 1), (x - 1, y),
       (x - 1, y - 1), (x, y - 1), (x + 1, y - 1)] := by
  obtain ⟨a, rfl⟩ : ∃ a, x = a + 1 := ⟨x - 1, by omega⟩
  obtain ⟨b, rfl⟩ : ∃ b, y = b + 1 := ⟨y - 1, by omega⟩
  constructor
  · simpa using toList_card_int a b
  · simpa using toList_diag_int a b

/-- Claim C8 witness: interior cell (1, 1) of the 4x4 world. -/
theorem neighbor_interior_exact_witness :
    (NeighborIter.new 1 1 Neighbors.Cardinal).toList =
      [(2, 1), (1, 2), (0, 1), (1, 0)] ∧
    (NeighborIter.new 1 1 Neighbors.CardinalAndDiagonal).toList =
      [(2, 1), (2, 2), (1, 2), (0, 2), (0, 1), (0, 0), (1, 0), (2, 0)] :=
  neighbor_interior_exact w44 1 1 (by decide) (by decide) (by decide) (by decide)

/-- Claim C10 (confirmed): the emitted sequence is a finite list of at most
4 (Cardinal) or 8 (CardinalAndDiagonal) coordinates, has no duplicates, and
never contains the center. -/
theorem neighbor_list_small (x y : Nat) :
    (NeighborIter.new x y Neighbors.Cardinal).toList.length ≤ 4 ∧
    (NeighborIter.new x y Neighbors.CardinalAndDiagonal).toList.length ≤ 8 ∧
    (NeighborIter.new x y Neighbors.Cardinal).toList.Nodup ∧
    (NeighborIter.new x y Neighbors.CardinalAndDiagonal).toList.Nodup ∧
    (x, y) ∉ (NeighborIter.new x y Neighbors.Cardinal).toList ∧
    (x, y) ∉ (NeighborIter.new x y Neighbors.CardinalAndDiagonal).toList := by
  rcases x with _ | a <;> rcases y with _ | b
  · refine ⟨?_, ?_, ?_, ?_, ?_, ?_⟩ <;> decide
  · refine ⟨?_, ?_, ?_, ?_, ?_, ?_⟩ <;>
      simp [toList_card_left, toList_diag_left, List.nodup_cons, Prod.mk.injEq] <;>
      omega
  · refine ⟨?_, ?_, ?_, ?_, ?_, ?_⟩ <;>
      simp [toList_card_top, toList_diag_top, List.nodup_cons, Prod.mk.injEq] <;>
      omega
  · refine ⟨?_, ?_, ?_, ?_, ?_, ?_⟩ <;>
      simp [toList_card_int, toList_diag_int, List.nodup_cons, Prod.mk.injEq] <;>
      omega

/-- Claim C2 counterexample: in the 4x4 world, enumerating the neighbors of
cell 3 (coordinates (3, 0)) yields (4, 0), whose first coordinate exceeds
width - 1 = 3; high-side coordinates are not clipped. -/
theorem neighbor_clip_counterexample :
    (w44.iter_neighbor_ids 3 Neighbors.Cardinal).map NeighborIter.toList =
      some [(4, 0), (3, 1), (2, 0)] ∧ w44.width - 1 < 4 := by
  decide

/-- Claim C2 as amended: the enumerator skips exactly the steps that would
underflow below zero (at x = 0 the SW/W/NW steps, at y = 0 the NW/N/NE
steps), but performs no high-side clipping: a coordinate equal to `x + 1` or
`y + 1` is emitted even when it equals the world width or height.  This is
the complete case analysis of the emitted sequences. -/
theorem neighbor_no_underflow (x y : Nat) :
    (NeighborIter.new (x + 1) (y + 1) Neighbors.Cardinal).toList =
      [(x + 2, y + 1), (x + 1, y + 2), (x, y + 1), (x + 1, y)] ∧
    (NeighborIter.new 0 (y + 1) Neighbors.Cardinal).toList =
      [(1, y + 1), (0, y + 2), (0, y)] ∧
    (NeighborIter.new (x + 1) 0 Neighbors.Cardinal).toList =
      [(x + 2, 0), (x + 1, 1), (x, 0)] ∧
    (NeighborIter.new 0 0 Neighbors.Cardinal).toList = [(1, 0), (0, 1)] ∧
    (NeighborIter.new (x + 1) (y + 1) Neighbors.CardinalAndDiagonal).toList =
      [(x + 2, y + 1), (x + 2, y + 2), (x + 1, y + 2), (x, y + 2), (x, y + 1),
       (x, y), (x + 1, y), (x + 2, y)] ∧
    (NeighborIter.new 0 (y + 1) Neighbors.CardinalAndDiagonal).toList =
      [(1, y + 1), (1, y + 2), (0, y + 2), (0, y), (1, y)] ∧
    (NeighborIter.new (x + 1) 0 Neighbors.CardinalAndDiagonal).toList =
      [(x + 2, 0), (x + 2, 1), (x + 1, 1), (x, 1), (x, 0)] ∧
    (NeighborIter.new 0 0 Neighbors.CardinalAndDiagonal).toList =
      [(1, 0), (1, 1), (0, 1)] :=
  ⟨toList_card_int x y, toList_card_left y, toList_card_top x,
   toList_card_corner, toList_diag_int x y, toList_diag_left y,
   toList_diag_top x, toList_diag_corner⟩

/-! ### Claims about coordinate/id conversion -/

/-- Claim C3 counterexample: in the 4x4 world, `id_at 4 1` is called with an
out-of-range x (4 ≥ width), yet returns `some 8`, the id of the different
cell (0, 2): the linear index wraps to the next row instead of being
rejected. -/
theorem id_at_wrap_counterexample :
    w44.id_at 4 1 = some 8 ∧ w44.coords_for 8 = some (0, 2) ∧ w44.width ≤ 4 := by
  decide

/-- Claim C3 as amended: for in-range coordinates `id_at`/`coords_for` are
mutually inverse, but `id_at` only rejects coordinates whose linear index
`y*width + x` falls outside the cell array: an x ≥ width with a small enough
y wraps to an id of a different cell instead of returning none. -/
theorem id_at_coords_for (w : World C) (x y : Nat)
    (hlen : w.cells.length = w.width * w.height) :
    (x < w.width → y < w.height →
      w.id_at x y = some (y * w.width + x) ∧
      w.coords_for (y * w.width + x) = some (x, y)) ∧
    (w.id_at x y = none ↔ w.width * w.height ≤ y * w.width + x) := by
  constructor
  · intro hx hy
    have hw : 0 < w.width := Nat.lt_of_le_of_lt (Nat.zero_le x) hx
    have hbound : y * w.width + x < w.width * w.height := by
      calc y * w.width + x < y * w.width + w.width := by omega
        _ = (y + 1) * w.width := by rw [add_one_mul]
        _ ≤ w.height * w.width := mul_le_mul_right' hy w.width
        _ = w.width * w.height := Nat.mul_comm _ _
    have hlt : y * w.width + x < w.cells.length := by omega
    constructor
    · simp [World.id_at, hlt]
    · have hdiv : (y * w.width + x) / w.width = y := by
        rw [Nat.add_comm, Nat.mul_comm, Nat.add_mul_div_left x y hw,
          Nat.div_eq_of_lt hx]
        omega
      have hsub : y * w.width + x - y * w.width = x := by omega
      simp [World.coords_for, if_pos hlt, hdiv, hsub]
  · rcases Nat.lt_or_ge (y * w.width + x) (w.width * w.height) with h | h
    · have hlt : y * w.width + x < w.cells.length := by omega
      simp [World.id_at, hlt]
      omega
    · have hge : ¬ y * w.width + x < w.cells.length := by omega
      simp [World.id_at, hge]
      omega

/-- Claim C3 witness: cell (1, 2) of the 4x4 world has id 9 and converts
back. -/
theorem id_at_coords_for_witness :
    w44.id_at 1 2 = some 9 ∧ w44.coords_for 9 = some (1, 2) :=
  (id_at_coords_for w44 1 2 (by decide)).1 (by decide) (by decide)

/-! ### Claim about config validation -/

/-- Claim C9 (confirmed): `valid_for` errors exactly when the goal is unset,
the start is unset, or a set id does not resolve through `coords_for`; with
both set and resolvable it succeeds no matter what the cells contain (the
condition never reads a cell, only the array length), and as in the source
it is a pure function of the config and the world. -/
theorem valid_for_iff (cfg : AStarCfg) (world : World C) :
    ((∃ e, cfg.valid_for world = Except.error e) ↔
      cfg.goal = none ∨ cfg.start = none ∨
      (∃ g, cfg.goal = some g ∧ world.coords_for g = none) ∨
      (∃ s, cfg.start = some s ∧ world.coords_for s = none)) ∧
    (∀ (g s : Nat), cfg.goal = some g → cfg.start = some s →
      g < world.cells.length → s < world.cells.length →
      cfg.valid_for world = Except.ok ()) := by
  constructor
  · cases hg : cfg.goal with
    | none => simp [AStarCfg.valid_for, hg]
    | some g =>
      by_cases hgc : world.coords_for g = none
      · simp [AStarCfg.valid_for, hg, hgc]
      · cases hs : cfg.start with
        | none => simp [AStarCfg.valid_for, hg, hs, hgc]
        | some s =>
          by_cases hsc : world.coords_for s = none <;>
            simp [AStarCfg.valid_for, hg, hs, hgc, hsc]
  · intro g s hg hs hglt hslt
    have hgc : ¬ world.coords_for g = none := by
      rw [coords_for_eq_none_iff]
      omega
    have hsc : ¬ world.coords_for s = none := by
      rw [coords_for_eq_none_iff]
      omega
    simp [AStarCfg.valid_for, hg, hs, hgc, hsc]

/-- Claim C9 witness: the 2x2 config with goal 0 and start 1 validates. -/
theorem valid_for_iff_witness : cfg22.valid_for w22o = Except.ok () :=
  (valid_for_iff cfg22 w22o).2 0 1 rfl rfl (by decide) (by decide)

/-! ### Claims about search construction and termination -/

theorem list_set_same {α : Type} :
    ∀ (l : List α) (i : Nat) (a : α), l.get? i = some a → l.set i a = l := by
  intro l
  induction l with
  | nil => intro i a h; simp at h
  | cons x t ih =>
    intro i a h
    cases i with
    | zero =>
      simp only [List.get?] at h
      cases h
      rfl
    | succ n =>
      simp only [List.get?] at h
      simp [List.set, ih n a h]

/-- Claim C4 counterexample: `from_cfg` succeeds on the all-open 2x2 world
with goal id 0, but the returned state's goal cell is still `Open`, not
`Visited{g:0, h:0, k:0, parent:goal}`: the goal marking is deferred to the
first `step` call. -/
theorem from_cfg_no_goal_mark :
    AStar.from_cfg cfg22 w22o = Except.ok s0 ∧ cfg22.goal = some 0 ∧
    s0.world.cell 0 = some Cell.Open := by
  decide

/-- Claim C4 as amended: `from_cfg` fails exactly when `valid_for` fails;
on success the state has the given config, `current = none`, an empty
frontier, step count 0, and the world stored entirely unchanged — the goal
cell is marked `Visited{g:0, h:0, k:0, parent:goal}` only by the first
`step()` call, not by construction. -/
theorem from_cfg_spec (cfg : AStarCfg) (world : World C) :
    ((AStar.from_cfg cfg world).isOk ↔ (cfg.valid_for world).isOk) ∧
    (∀ s : AStar C, AStar.from_cfg cfg world = Except.ok s →
      s.config = cfg ∧ s.current = none ∧ s.frontier = [] ∧
      s.world = world ∧ s.prev_step = 0) := by
  cases h : cfg.valid_for world with
  | error e =>
    constructor
    · simp [AStar.from_cfg, h, Except.isOk, Except.toBool]
    · intro s hs
      simp [AStar.from_cfg, h] at hs
  | ok u =>
    cases u
    constructor
    · simp [AStar.from_cfg, h, Except.isOk, Except.toBool]
    · intro s hs
      simp only [AStar.from_cfg, h, Except.ok.injEq] at hs
      subst hs
      exact ⟨rfl, rfl, rfl, rfl, rfl⟩

/-- Claim C4 witness: instantiation at the 2x2 fixture. -/
theorem from_cfg_spec_witness :
    s0.config = cfg22 ∧ s0.current = none ∧ s0.frontier = [] ∧
    s0.world = w22o ∧ s0.prev_step = 0 :=
  (from_cfg_spec cfg22 w22o).2 s0 (by decide)

/-- Claim C5 counterexample: on the all-open 2x2 world (goal 0, start 1,
Cardinal, no heuristic) the third `step` call returns absent by popping the
start cell (path found) while the frontier still holds cell 3; the fourth
call is not a no-op: it pops and expands cell 3 and returns `some 3`. -/
theorem step_not_sticky_counterexample :
    AStar.from_cfg cfg22 w22o = Except.ok s0 ∧
    (AStar.step euclid0
      (AStar.step euclid0 (AStar.step euclid0 s0).2).2).1 = none ∧
    (AStar.step euclid0 (AStar.step euclid0
      (AStar.step euclid0 (AStar.step euclid0 s0).2).2).2).1 = some 3 := by
  refine ⟨by decide, by decide, by decide⟩

/-- Claim C5 as amended: a `step()` that returns absent leaves no terminal
marker; stickiness holds only when the frontier is empty at that point.
Concretely: when `current` is set and the frontier is empty, `step` is a
no-op returning absent (the NoPath case, stable forever); and when
goal = start, after the first call has marked the goal the state is a
fixpoint of `step`.  A PathFound return that leaves entries in the frontier
is not sticky (see the counterexample). -/
theorem step_terminal_noop [LinearOrderedSemiring C]
    (eucl : Nat × Nat → Nat × Nat → C) (s : AStar C) :
    (∀ c : Nat, s.current = some c → s.frontier = [] →
      AStar.step eucl s = (none, s)) ∧
    (∀ g : Nat, s.current = none → s.config.goal = some g →
      s.config.start = some g → s.world.cell g = some (Cell.Visited 0 0 0 g) →
      AStar.step eucl s = (none, s)) := by
  constructor
  · intro c hc hf
    cases hg : s.config.goal with
    | none => simp [AStar.step, hg]
    | some goal => simp [AStar.step, hg, hc, hf]
  · intro g hc hg hs hcell
    have hworld : s.world.setCell g (Cell.Visited 0 0 0 g) = s.world := by
      unfold World.setCell
      rw [list_set_same _ _ _ hcell]
    simp [AStar.step, hg, hc, hs, hworld]
    rw [← hc]

/-- A state whose frontier has been exhausted (NoPath shape). -/
def sNP : AStar Int :=
  { config := cfg22, current := some 0, frontier := [], world := w22o,
    prev_step := 1 }

/-- A 1x1 world whose only cell is the marked goal. -/
def wGS : World Int :=
  { width := 1, height := 1, cells := [Cell.Visited 0 0 0 0] }

/-- Config with goal = start = 0. -/
def cfgGS : AStarCfg := (AStarCfg.new.with_goal 0).with_start 0

/-- State after the first call when goal = start. -/
def sGS : AStar Int :=
  { config := cfgGS, current := none, frontier := [], world := wGS,
    prev_step := 0 }

/-- Claim C5 witness: both no-op shapes at concrete states. -/
theorem step_terminal_noop_witness :
    AStar.step euclid0 sNP = (none, sNP) ∧
    AStar.step euclid0 sGS = (none, sGS) :=
  ⟨(step_terminal_noop euclid0 sNP).1 0 rfl rfl,
   (step_terminal_noop euclid0 sGS).2 0 rfl rfl rfl (by decide)⟩

/-! ### Claim C1: the relaxation cases of the neighbor loop -/

/-- Claim C1 (confirmed): during one `step()` expanding `next` with
accumulated cost `myCost`, for an in-range non-obstacle neighbor with
tentative cost `tg = edge_cost + myCost` and heuristic `hv`: an `Open` cell
is marked `Visited{g:tg, h:hv, k:0, parent:next}` and `(id, tg + hv)` is
appended to the frontier (there is no prior entry for an `Open` cell); a
`Visited` cell with stored `g`, whose frontier entry sits at position `i`,
is overwritten and that entry is updated in place exactly when `g > tg`;
when `g ≤ tg` both the world and the frontier are left unchanged. -/
theorem relaxation_cases [LinearOrderedSemiring C]
    (eucl : Nat × Nat → Nat × Nat → C) (cfg : AStarCfg)
    (myCoord goalCoord : Nat × Nat) (myCost : C) (next : Nat)
    (world : World C) (frontier : List (Nat × C)) (x y : Nat) (id : Nat)
    (hid : world.id_at x y = some id) :
    (world.cell_at x y = some Cell.Open →
      id ∉ frontier.map Prod.fst →
      relaxNeighbor eucl cfg myCoord goalCoord myCost next (world, frontier)
          (x, y) =
        (world.setCellAt x y
          (Cell.Visited (edge_cost eucl cfg.neighbors (x, y) myCoord + myCost)
            (heur_val eucl cfg.heuristic (x, y) goalCoord) 0 next),
         frontier ++
          [(id, (edge_cost eucl cfg.neighbors (x, y) myCoord + myCost) +
                heur_val eucl cfg.heuristic (x, y) goalCoord)])) ∧
    (∀ (g h k : C) (p i : Nat),
      world.cell_at x y = some (Cell.Visited g h k p) →
      frontier.findIdx? (fun pr => pr.1 == id) = some i →
      g > edge_cost eucl cfg.neighbors (x, y) myCoord + myCost →
      relaxNeighbor eucl cfg myCoord goalCoord myCost next (world, frontier)
          (x, y) =
        (world.setCellAt x y
          (Cell.Visited (edge_cost eucl cfg.neighbors (x, y) myCoord + myCost)
            (heur_val eucl cfg.heuristic (x, y) goalCoord) 0 next),
         frontier.set i
          (id, (edge_cost eucl cfg.neighbors (x, y) myCoord + myCost) +
               heur_val eucl cfg.heuristic (x, y) goalCoord))) ∧
    (∀ (g h k : C) (p : Nat),
      world.cell_at x y = some (Cell.Visited g h k p) →
      g ≤ edge_cost eucl cfg.neighbors (x, y) myCoord + myCost →
      relaxNeighbor eucl cfg myCoord goalCoord myCost next (world, frontier)
          (x, y) =
        (world, frontier)) := by
  refine ⟨?_, ?_, ?_⟩
  · intro hcell hnotin
    have hfind : frontier.findIdx? (fun pr => pr.1 == id) = none := by
      rw [List.findIdx?_eq_none_iff]
      intro pr hpr
      simp only [beq_eq_false_iff_ne, ne_eq]
      intro hpe
      exact hnotin (hpe ▸ List.mem_map_of_mem Prod.fst hpr)
    simp only [relaxNeighbor, hcell, hid, frontierUpsert, hfind,
      Option.getD_some]
    rw [add_comm (heur_val eucl cfg.heuristic (x, y) goalCoord)]
  · intro g h k p i hcell hfind hgt
    simp only [relaxNeighbor, hcell, hid, frontierUpsert, hfind,
      Option.getD_some, if_pos hgt]
    rw [add_comm (heur_val eucl cfg.heuristic (x, y) goalCoord)]
  · intro g h k p hcell hle
    have hngt : ¬ g > edge_cost eucl cfg.neighbors (x, y) myCoord + myCost :=
      not_lt_of_le hle
    simp only [relaxNeighbor, hcell, hid, if_neg hngt]

/-- World with a `Visited{g:5}` cell at (1, 0), for the in-place case. -/
def wv5 : World Int :=
  { width := 2, height := 1, cells := [Cell.Open, Cell.Visited 5 0 0 0] }

/-- World with a `Visited{g:1}` cell at (1, 0), for the keep case. -/
def wv1 : World Int :=
  { width := 2, height := 1, cells := [Cell.Open, Cell.Visited 1 0 0 0] }

/-- Claim C1 witness: the three relaxation cases at concrete inputs
(Cardinal edge cost 1, heuristic none, expanding cell 0 with cost 0). -/
theorem relaxation_cases_witness :
    (relaxNeighbor euclid0 cfg22 (0, 0) (1, 0) 0 0 (w22o, []) (1, 0) =
      (w22o.setCellAt 1 0 (Cell.Visited 1 0 0 0), [(1, 1)])) ∧
    (relaxNeighbor euclid0 cfg22 (0, 0) (1, 0) 0 0 (wv5, [(1, 5)]) (1, 0) =
      (wv5.setCellAt 1 0 (Cell.Visited 1 0 0 0), [(1, 1)])) ∧
    (relaxNeighbor euclid0 cfg22 (0, 0) (1, 0) 0 0 (wv1, [(1, 1)]) (1, 0) =
      (wv1, [(1, 1)])) := by
  refine ⟨?_, ?_, ?_⟩
  · have h := (relaxation_cases euclid0 cfg22 (0, 0) (1, 0) 0 0 w22o [] 1 0 1
      (by decide)).1 (by decide) (by decide)
    rw [h]
    decide
  · have h := (relaxation_cases euclid0 cfg22 (0, 0) (1, 0) 0 0 wv5 [(1, 5)]
      1 0 1 (by decide)).2.1 5 0 0 0 0 (by decide) (by decide) (by decide)
    rw [h]
    decide
  · exact (relaxation_cases euclid0 cfg22 (0, 0) (1, 0) 0 0 wv1 [(1, 1)] 1 0 1
      (by decide)).2.2 1 0 0 0 (by decide) (by decide)

/-! ### Claim C6: obstacle and parent invariants of `step` -/

/-- Every `Visited` cell's parent is an id in range. -/
def World.parentsValid (w : World C) : Prop :=
  ∀ (id : Nat) (g h k : C) (p : Nat),
    w.cell id = some (Cell.Visited g h k p) → p < w.cells.length

/-- Every frontier entry's id is in range of the search's world. -/
def AStar.frontierIdsValid (s : AStar C) : Prop :=
  ∀ pr ∈ s.frontier, pr.1 < s.world.cells.length

/-- Boolean test for the `Visited` variant (used to discharge
`parentsValid` on concrete worlds). -/
def Cell.isVisited : Cell C → Bool
  | Cell.Visited _ _ _ _ => true
  | _ => false

theorem parentsValid_of_no_visited (w : World C)
    (h : ∀ c ∈ w.cells, c.isVisited = false) : w.parentsValid := by
  intro id g h2 k p hc
  have hm : Cell.Visited g h2 k p ∈ w.cells := List.get?_mem hc
  have := h _ hm
  simp [Cell.isVisited] at this

theorem id_at_lt {w : World C} {x y id : Nat} (h : w.id_at x y = some id) :
    id < w.cells.length := by
  simp only [World.id_at] at h
  by_cases hlt : y * w.width + x < w.cells.length
  · simp only [if_pos hlt, Option.some.injEq] at h
    omega
  · simp [if_neg hlt] at h

theorem cell_at_some_imp {w : World C} {x y : Nat} {c : Cell C}
    (h : w.cell_at x y = some c) :
    ∃ id : Nat, w.id_at x y = some id ∧ w.cell id = some c := by
  unfold World.cell_at at h
  cases hi : w.id_at x y with
  | none => rw [hi] at h; cases h
  | some id => rw [hi] at h; exact ⟨id, rfl, h⟩

theorem cell_setCell_ne (w : World C) {i j : Nat} (c : Cell C) (h : j ≠ i) :
    (w.setCell i c).cell j = w.cell j := by
  simp [World.setCell, World.cell, List.get?_eq_getElem?,
    List.getElem?_set_ne (Ne.symm h)]

theorem cell_setCell_self (w : World C) {i : Nat} (c : Cell C)
    (h : i < w.cells.length) : (w.setCell i c).cell i = some c := by
  simp [World.setCell, World.cell, List.get?_eq_getElem?,
    List.getElem?_set_self h]

theorem setCell_length (w : World C) (i : Nat) (c : Cell C) :
    (w.setCell i c).cells.length = w.cells.length := by
  simp [World.setCell]

theorem setCell_parentsValid (w : World C) {i : Nat} {g2 h2 k2 : C}
    {p2 : Nat} (hp : p2 < w.cells.length) (hpar : w.parentsValid) :
    (w.setCell i (Cell.Visited g2 h2 k2 p2)).parentsValid := by
  intro id g h k p hc
  rw [setCell_length]
  by_cases hii : id = i
  · subst hii
    by_cases hlen : id < w.cells.length
    · rw [cell_setCell_self w _ hlen] at hc
      cases hc
      exact hp
    · have : (w.setCell id (Cell.Visited g2 h2 k2 p2)) = w := by
        unfold World.setCell
        rw [List.set_eq_of_length_le (by omega)]
      rw [this] at hc
      exact hpar id g h k p hc
  · rw [cell_setCell_ne w _ hii] at hc
    exact hpar id g h k p hc

/-- The neighbor-loop body keeps the cell count, never rewrites an
`Obstacle` cell, keeps parents in range (the only parent it writes is
`next`), and only adds in-range ids to the frontier. -/
theorem relax_preserves [LinearOrderedSemiring C]
    (eucl : Nat × Nat → Nat × Nat → C) (cfg : AStarCfg)
    (mc gc : Nat × Nat) (mcost : C) (next : Nat)
    (st : World C × List (Nat × C)) (xy : Nat × Nat) :
    ((relaxNeighbor eucl cfg mc gc mcost next st xy).1.cells.length =
      st.1.cells.length) ∧
    (∀ id : Nat, st.1.cell id = some Cell.Obstacle →
      (relaxNeighbor eucl cfg mc gc mcost next st xy).1.cell id =
        some Cell.Obstacle) ∧
    (next < st.1.cells.length → st.1.parentsValid →
      (relaxNeighbor eucl cfg mc gc mcost next st xy).1.parentsValid) ∧
    ((∀ pr ∈ st.2, pr.1 < st.1.cells.length) →
      ∀ pr ∈ (relaxNeighbor eucl cfg mc gc mcost next st xy).2,
        pr.1 < st.1.cells.length) := by
  obtain ⟨w, f⟩ := st
  obtain ⟨x, y⟩ := xy
  cases hc : w.cell_at x y with
  | none =>
    have hre : relaxNeighbor eucl cfg mc gc mcost next (w, f) (x, y) = (w, f) := by
      simp only [relaxNeighbor, hc]
    rw [hre]
    exact ⟨rfl, fun _ h => h, fun _ h => h, fun h => h⟩
  | some c =>
    obtain ⟨cid, hcid, hccell⟩ := cell_at_some_imp hc
    have hlt : cid < w.cells.length := id_at_lt hcid
    have hset : ∀ cc : Cell C, w.setCellAt x y cc = w.setCell cid cc := by
      intro cc
      simp [World.setCellAt, hcid]
    have hobs : ∀ cc : Cell C, c ≠ Cell.Obstacle →
        ∀ id : Nat, w.cell id = some Cell.Obstacle →
          (w.setCell cid cc).cell id = some Cell.Obstacle := by
      intro cc hnc id hid
      have hne : id ≠ cid := by
        intro he
        rw [he, hccell] at hid
        cases hid
        exact hnc rfl
      rw [cell_setCell_ne w cc hne]
      exact hid
    have hfkeep : ∀ (cost : C),
        (∀ pr ∈ f, pr.1 < w.cells.length) →
        ∀ pr ∈ frontierUpsert f ((w.id_at x y).getD 0) cost,
          pr.1 < w.cells.length := by
      intro cost hf pr hpr
      rw [hcid] at hpr
      simp only [Option.getD_some] at hpr
      unfold frontierUpsert at hpr
      cases hfind : f.findIdx? (fun p => p.1 == cid) with
      | some idx =>
        rw [hfind] at hpr
        rcases List.mem_or_eq_of_mem_set hpr with hin | heq
        · exact hf pr hin
        · rw [heq]
          exact hlt
      | none =>
        rw [hfind] at hpr
        rcases List.mem_append.1 hpr with hin | hone
        · exact hf pr hin
        · rcases List.mem_singleton.1 hone with rfl
          exact hlt
    cases c with
    | Obstacle =>
      have hre : relaxNeighbor eucl cfg mc gc mcost next (w, f) (x, y) =
          (w, f) := by
        simp only [relaxNeighbor, hc]
      rw [hre]
      exact ⟨rfl, fun _ h => h, fun _ h => h, fun h => h⟩
    | Open =>
      simp only [relaxNeighbor, hc, hset]
      refine ⟨setCell_length w cid _, fun id hid => hobs _ (by simp) id hid,
        fun hnext hpar => ?_, fun hf => hfkeep _ hf⟩
      exact setCell_parentsValid w hnext hpar
    | Visited g h k p =>
      by_cases hgt :
          g > edge_cost eucl cfg.neighbors (x, y) mc + mcost
      · simp only [relaxNeighbor, hc, if_pos hgt, hset]
        refine ⟨setCell_length w cid _, fun id hid => hobs _ (by simp) id hid,
          fun hnext hpar => ?_, fun hf => hfkeep _ hf⟩
        exact setCell_parentsValid w hnext hpar
      · have hre : relaxNeighbor eucl cfg mc gc mcost next (w, f) (x, y) =
            (w, f) := by
          simp only [relaxNeighbor, hc, if_neg hgt]
        rw [hre]
        exact ⟨rfl, fun _ h => h, fun _ h => h, fun h => h⟩

/-- `relax_preserves` lifted over the whole neighbor list. -/
theorem foldl_relax_preserves [LinearOrderedSemiring C]
    (eucl : Nat × Nat → Nat × Nat → C) (cfg : AStarCfg)
    (mc gc : Nat × Nat) (mcost : C) (next : Nat) :
    ∀ (l : List (Nat × Nat)) (st : World C × List (Nat × C)),
    ((l.foldl (relaxNeighbor eucl cfg mc gc mcost next) st).1.cells.length =
      st.1.cells.length) ∧
    (∀ id : Nat, st.1.cell id = some Cell.Obstacle →
      (l.foldl (relaxNeighbor eucl cfg mc gc mcost next) st).1.cell id =
        some Cell.Obstacle) ∧
    (next < st.1.cells.length → st.1.parentsValid →
      (l.foldl (relaxNeighbor eucl cfg mc gc mcost next) st).1.parentsValid) ∧
    ((∀ pr ∈ st.2, pr.1 < st.1.cells.length) →
      ∀ pr ∈ (l.foldl (relaxNeighbor eucl cfg mc gc mcost next) st).2,
        pr.1 < st.1.cells.length) := by
  intro l
  induction l with
  | nil =>
    intro st
    exact ⟨rfl, fun _ h => h, fun _ h => h, fun h => h⟩
  | cons a t ih =>
    intro st
    obtain ⟨hlen1, hobs1, hpar1, hfr1⟩ :=
      relax_preserves eucl cfg mc gc mcost next st a
    obtain ⟨hlen2, hobs2, hpar2, hfr2⟩ :=
      ih (relaxNeighbor eucl cfg mc gc mcost next st a)
    refine ⟨by rw [List.foldl_cons, hlen2, hlen1], ?_, ?_, ?_⟩
    · intro id hid
      rw [List.foldl_cons]
      exact hobs2 id (hobs1 id hid)
    · intro hnext hpar
      rw [List.foldl_cons]
      exact hpar2 (hlen1 ▸ hnext) (hpar1 hnext hpar)
    · intro hf
      rw [List.foldl_cons]
      intro pr hpr
      rw [← hlen1]
      exact hfr2 (fun pr2 hpr2 => hlen1 ▸ hfr1 hf pr2 hpr2) pr hpr

/-- Case analysis of one `step` call: the result state is the input itself,
the selection state `s1` (goal freshly marked, or frontier popped), or `s1`
with the neighbor fold applied to its world and frontier. -/
theorem step_result_cases [LinearOrderedSemiring C]
    (eucl : Nat × Nat → Nat × Nat → C) (s : AStar C) (g : Nat)
    (hg : s.config.goal = some g) :
    (AStar.step eucl s).2 = s ∨
    ∃ (next : Nat) (s1 : AStar C),
      ((s.current = none ∧ next = g ∧
        s1 = { s with world := s.world.setCell g (Cell.Visited 0 0 0 g) }) ∨
       (∃ (c : Nat) (pc : C), s.current = some c ∧
        s.frontier.getLast? = some (next, pc) ∧
        s1 = { s with frontier := s.frontier.dropLast })) ∧
      ((AStar.step eucl s).2 = s1 ∨
       ∃ (l : List (Nat × Nat)) (mc gc : Nat × Nat) (mcost : C),
         (AStar.step eucl s).2.world =
           (l.foldl (relaxNeighbor eucl s.config mc gc mcost next)
             (s1.world, s1.frontier)).1 ∧
         (AStar.step eucl s).2.frontier =
           sortFrontier
             (l.foldl (relaxNeighbor eucl s.config mc gc mcost next)
               (s1.world, s1.frontier)).2) := by
  cases hcur : s.current with
  | none =>
    right
    refine ⟨g, _, Or.inl ⟨rfl, rfl, rfl⟩, ?_⟩
    cases hst : s.config.start with
    | none =>
      left
      simp [AStar.step, hg, hcur, hst]
    | some start =>
      by_cases hgs : g = start
      · left
        simp [AStar.step, hg, hcur, hst, hgs]
      · cases hcg : (s.world.setCell g (Cell.Visited 0 0 0 g)).coords_for g with
        | none =>
          left
          simp [AStar.step, hg, hcur, hst, hgs, hcg]
        | some mc =>
          cases hcs :
              (s.world.setCell g (Cell.Visited 0 0 0 g)).coords_for start with
          | none =>
            left
            simp [AStar.step, hg, hcur, hst, hgs, hcg, hcs]
          | some gc =>
            right
            refine ⟨(NeighborIter.new mc.1 mc.2 s.config.neighbors).toList,
              mc, gc, ?_, ?_, ?_⟩
            · exact match (s.world.setCell g (Cell.Visited 0 0 0 g)).cell g with
                | some (Cell.Visited gg _ _ _) => gg
                | _ => 0
            · simp [AStar.step, hg, hcur, hst, hgs, hcg, hcs,
                World.iter_neighbor_ids]
            · simp [AStar.step, hg, hcur, hst, hgs, hcg, hcs,
                World.iter_neighbor_ids]
  | some c =>
    cases hlast : s.frontier.getLast? with
    | none =>
      left
      simp [AStar.step, hg, hcur, hlast]
    | some pr =>
      obtain ⟨nid, pc⟩ := pr
      right
      refine ⟨nid, _, Or.inr ⟨c, pc, rfl, rfl, rfl⟩, ?_⟩
      cases hst : s.config.start with
      | none =>
        left
        simp [AStar.step, hg, hcur, hlast, hst]
      | some start =>
        by_cases hgs : nid = start
        · left
          simp [AStar.step, hg, hcur, hlast, hst, hgs]
        · cases hcg : s.world.coords_for nid with
          | none =>
            left
            simp [AStar.step, hg, hcur, hlast, hst, hgs, hcg]
          | some mc =>
            cases hcs : s.world.coords_for start with
            | none =>
              left
              simp [AStar.step, hg, hcur, hlast, hst, hgs, hcg, hcs]
            | some gc =>
              right
              refine ⟨(NeighborIter.new mc.1 mc.2 s.config.neighbors).toList,
                mc, gc, ?_, ?_, ?_⟩
              · exact match s.world.cell nid with
                  | some (Cell.Visited gg _ _ _) => gg
                  | _ => 0
              · simp [AStar.step, hg, hcur, hlast, hst, hgs, hcg, hcs,
                  World.iter_neighbor_ids]
              · simp [AStar.step, hg, hcur, hlast, hst, hgs, hcg, hcs,
                  World.iter_neighbor_ids]

/-- Claim C6 counterexample: from the validly constructed search on the 2x1
world whose goal cell 0 is an `Obstacle`, the first `step()` unconditionally
rewrites the goal cell to `Visited{0,0,0,0}` — an `Obstacle` goal cell is
reclassified by the search. -/
theorem obstacle_goal_reclassified :
    AStar.from_cfg cfgob wob = Except.ok sob ∧
    wob.cell 0 = some Cell.Obstacle ∧ cfgob.goal = some 0 ∧
    (AStar.step euclid0 sob).2.world.cell 0 = some (Cell.Visited 0 0 0 0) := by
  refine ⟨by rfl, by rfl, by rfl, by decide⟩

/-- Claim C6 as amended: `step()` never reclassifies an Obstacle cell other
than the goal (the neighbor loop skips obstacles, and the start cell is
never written), and — given an in-range goal, in-range frontier ids, and
in-range parents — every cell that is `Visited` after the call still has an
in-range parent, and all frontier ids remain in range; but the goal cell
itself is exempt: the first call marks it `Visited` even if it was an
`Obstacle` (see the counterexample). -/
theorem step_preserves_invariants [LinearOrderedSemiring C]
    (eucl : Nat × Nat → Nat × Nat → C) (s : AStar C) (g : Nat)
    (hg : s.config.goal = some g) :
    (∀ id : Nat, id ≠ g → s.world.cell id = some Cell.Obstacle →
      (AStar.step eucl s).2.world.cell id = some Cell.Obstacle) ∧
    (g < s.world.cells.length → s.world.parentsValid → s.frontierIdsValid →
      (AStar.step eucl s).2.world.parentsValid ∧
      (AStar.step eucl s).2.frontierIdsValid) := by
  rcases step_result_cases eucl s g hg with heq | ⟨next, s1, hs1, hres⟩
  · rw [heq]
    exact ⟨fun id _ h => h, fun _ hp hf => ⟨hp, hf⟩⟩
  · have hfacts :
        (∀ id : Nat, id ≠ g → s.world.cell id = some Cell.Obstacle →
          s1.world.cell id = some Cell.Obstacle) ∧
        s1.world.cells.length = s.world.cells.length ∧
        (g < s.world.cells.length → s.world.parentsValid →
          s1.world.parentsValid) ∧
        (s.frontierIdsValid →
          ∀ pr ∈ s1.frontier, pr.1 < s.world.cells.length) ∧
        (g < s.world.cells.length → s.frontierIdsValid →
          next < s1.world.cells.length) := by
      rcases hs1 with ⟨hcur, hnext, rfl⟩ | ⟨c, pc, hcur, hlast, rfl⟩
      · refine ⟨fun id hne h => ?_, setCell_length s.world g _,
          fun hlen hp => setCell_parentsValid s.world hlen hp,
          fun hf pr hpr => hf pr hpr, fun hlen _ => ?_⟩
        · rw [cell_setCell_ne s.world _ hne]
          exact h
        · rw [hnext]
          show g < (s.world.setCell g (Cell.Visited 0 0 0 g)).cells.length
          rw [setCell_length]
          exact hlen
      · have hmem : (next, pc) ∈ s.frontier :=
          List.mem_of_getLast?_eq_some hlast
        refine ⟨fun id _ h => h, rfl, fun _ hp => hp,
          fun hf pr hpr => hf pr ((List.dropLast_sublist s.frontier).subset hpr),
          fun _ hf => hf (next, pc) hmem⟩
    obtain ⟨hobs1, hlen1, hpar1, hfr1, hnext1⟩ := hfacts
    rcases hres with hres | ⟨l, mc, gc, mcost, hw, hsf⟩
    · rw [hres]
      refine ⟨hobs1, fun hlen hp hf => ⟨hpar1 hlen hp, ?_⟩⟩
      intro pr hpr
      rw [hlen1]
      exact hfr1 hf pr hpr
    · obtain ⟨hflen, hfobs, hfpar, hffr⟩ :=
        foldl_relax_preserves eucl s.config mc gc mcost next l
          (s1.world, s1.frontier)
      constructor
      · intro id hne h
        rw [hw]
        exact hfobs id (hobs1 id hne h)
      · intro hlen hp hf
        constructor
        · rw [hw]
          exact hfpar (hnext1 hlen hf) (hpar1 hlen hp)
        · intro pr hpr
          rw [hsf] at hpr
          have hpr2 : pr ∈
              (l.foldl (relaxNeighbor eucl s.config mc gc mcost next)
                (s1.world, s1.frontier)).2 := by
            simpa [sortFrontier, List.mem_insertionSort] using hpr
          have h3 : pr.1 < s1.world.cells.length :=
            hffr (fun pr2 hpr2 => by rw [hlen1]; exact hfr1 hf pr2 hpr2)
              pr hpr2
          rw [hw, hflen]
          exact h3

/-- 2x2 world with an obstacle at (0, 1) away from the goal. -/
def wWit : World Int :=
  { width := 2, height := 2,
    cells := [Cell.Open, Cell.Open, Cell.Obstacle, Cell.Open] }

/-- Config for `wWit`: goal 0, start 3. -/
def cfgWit : AStarCfg := (AStarCfg.new.with_goal 0).with_start 3

/-- Fresh search on `wWit`. -/
def sWit : AStar Int :=
  { config := cfgWit, current := none, frontier := [], world := wWit,
    prev_step := 0 }

/-- Claim C6 witness: after one step the non-goal obstacle survives and the
invariants hold. -/
theorem step_preserves_invariants_witness :
    (AStar.step euclid0 sWit).2.world.cell 2 = some Cell.Obstacle ∧
    (AStar.step euclid0 sWit).2.world.parentsValid ∧
    (AStar.step euclid0 sWit).2.frontierIdsValid := by
  have h := step_preserves_invariants euclid0 sWit 0 rfl
  have hb := h.2 (by decide)
    (parentsValid_of_no_visited wWit (by decide))
    (fun pr hpr => absurd hpr (List.not_mem_nil pr))
  exact ⟨h.1 2 (by decide) (by decide), hb.1, hb.2⟩

/-! ### Claim C7: the frontier is duplicate-free and sorted descending -/

theorem sorted_getLast_min [LinearOrder C] :
    ∀ (f : List (Nat × C)) (a : Nat × C), List.Sorted frontier_ge f →
      f.getLast? = some a → ∀ b ∈ f, a.2 ≤ b.2 := by
  intro f
  induction f with
  | nil => intro a _ h; cases h
  | cons x t ih =>
    intro a hs hl b hb
    rcases List.sorted_cons.1 hs with ⟨hx, ht⟩
    cases t with
    | nil =>
      have hax : a = x := by
        simp only [List.getLast?_singleton, Option.some.injEq] at hl
        exact hl.symm
      have hbx : b = x := by simpa using hb
      rw [hax, hbx]
    | cons y t2 =>
      rw [List.getLast?_cons_cons] at hl
      have hmem : a ∈ y :: t2 := List.mem_of_getLast?_eq_some hl
      rcases List.mem_cons.1 hb with rfl | hb2
      · exact hx a hmem
      · exact ih a ht hl b hb2

theorem frontierUpsert_fst_nodup (f : List (Nat × C)) (id : Nat) (cost : C)
    (hnd : (f.map Prod.fst).Nodup) :
    ((frontierUpsert f id cost).map Prod.fst).Nodup := by
  unfold frontierUpsert
  cases hfind : f.findIdx? (fun p => p.1 == id) with
  | some idx =>
    obtain ⟨hlt, hp, -⟩ := List.findIdx?_eq_some_iff_getElem.1 hfind
    have hid : f[idx].1 = id := by simpa using hp
    rw [List.map_set]
    have hg : (f.map Prod.fst).get? idx = some id := by
      rw [List.get?_map, List.get?_eq_getElem?, List.getElem?_eq_getElem hlt]
      simp [hid]
    rw [list_set_same _ _ _ hg]
    exact hnd
  | none =>
    have hnotin : id ∉ f.map Prod.fst := by
      rw [List.findIdx?_eq_none_iff] at hfind
      intro hmem
      rcases List.mem_map.1 hmem with ⟨pr, hpr, he⟩
      have hf := hfind pr hpr
      rw [he] at hf
      simp at hf
    rw [List.map_append]
    refine List.nodup_append.2 ⟨hnd, List.nodup_singleton id, ?_⟩
    intro a ha hb
    rcases List.mem_singleton.1 hb with rfl
    exact hnotin ha

/-- The frontier after one neighbor relaxation is either unchanged or a
`frontierUpsert` at the neighbor's id. -/
theorem relax_frontier_cases [LinearOrderedSemiring C]
    (eucl : Nat × Nat → Nat × Nat → C) (cfg : AStarCfg)
    (mc gc : Nat × Nat) (mcost : C) (next : Nat) (w : World C)
    (f : List (Nat × C)) (x y : Nat) :
    (relaxNeighbor eucl cfg mc gc mcost next (w, f) (x, y)).2 = f ∨
    ∃ (id2 : Nat) (cost : C), w.id_at x y = some id2 ∧
      (relaxNeighbor eucl cfg mc gc mcost next (w, f) (x, y)).2 =
        frontierUpsert f id2 cost := by
  cases hc : w.cell_at x y with
  | none => left; simp [relaxNeighbor, hc]
  | some c =>
    obtain ⟨cid, hcid, -⟩ := cell_at_some_imp hc
    cases c with
    | Obstacle => left; simp [relaxNeighbor, hc]
    | Open =>
      right
      exact ⟨cid,
        heur_val eucl cfg.heuristic (x, y) gc +
          (edge_cost eucl cfg.neighbors (x, y) mc + mcost),
        hcid, by simp [relaxNeighbor, hc, hcid]⟩
    | Visited g h k p =>
      by_cases hgt : g > edge_cost eucl cfg.neighbors (x, y) mc + mcost
      · right
        exact ⟨cid,
          heur_val eucl cfg.heuristic (x, y) gc +
            (edge_cost eucl cfg.neighbors (x, y) mc + mcost),
          hcid, by simp [relaxNeighbor, hc, hcid, if_pos hgt]⟩
      · left
        simp [relaxNeighbor, hc, if_neg hgt]

theorem foldl_relax_fst_nodup [LinearOrderedSemiring C]
    (eucl : Nat × Nat → Nat × Nat → C) (cfg : AStarCfg)
    (mc gc : Nat × Nat) (mcost : C) (next : Nat) :
    ∀ (l : List (Nat × Nat)) (st : World C × List (Nat × C)),
      (st.2.map Prod.fst).Nodup →
      ((l.foldl (relaxNeighbor eucl cfg mc gc mcost next) st).2.map
        Prod.fst).Nodup := by
  intro l
  induction l with
  | nil => intro st h; exact h
  | cons a t ih =>
    intro st h
    rw [List.foldl_cons]
    refine ih _ ?_
    obtain ⟨w, f⟩ := st
    obtain ⟨x, y⟩ := a
    rcases relax_frontier_cases eucl cfg mc gc mcost next w f x y with
      he | ⟨id2, cost, -, he⟩
    · rw [he]; exact h
    · rw [he]; exact frontierUpsert_fst_nodup f id2 cost h

/-- Claim C7 (confirmed): if the frontier has pairwise distinct ids and is
sorted by non-increasing priority, then after any `step()` call it is again
duplicate-free and sorted, its last element has the minimum priority, and
the element `step` pops (the last, when `current` is set and the frontier
nonempty) has the minimum priority of the pre-state frontier — pop-from-end
is extract-minimum. -/
theorem frontier_invariant [LinearOrderedSemiring C]
    (eucl : Nat × Nat → Nat × Nat → C) (s : AStar C)
    (hnd : (s.frontier.map Prod.fst).Nodup)
    (hsort : List.Sorted frontier_ge s.frontier) :
    ((AStar.step eucl s).2.frontier.map Prod.fst).Nodup ∧
    List.Sorted frontier_ge (AStar.step eucl s).2.frontier ∧
    (∀ l2, (AStar.step eucl s).2.frontier.getLast? = some l2 →
      ∀ pr ∈ (AStar.step eucl s).2.frontier, l2.2 ≤ pr.2) ∧
    (∀ c, s.current = some c → ∀ l2, s.frontier.getLast? = some l2 →
      ∀ pr ∈ s.frontier, l2.2 ≤ pr.2) := by
  have hdropnd : ((s.frontier.dropLast).map Prod.fst).Nodup := by
    rw [List.map_dropLast]
    exact hnd.sublist (List.dropLast_sublist _)
  have hdropsort : List.Sorted frontier_ge s.frontier.dropLast :=
    List.Pairwise.sublist (List.dropLast_sublist _) hsort
  have core : ((AStar.step eucl s).2.frontier.map Prod.fst).Nodup ∧
      List.Sorted frontier_ge (AStar.step eucl s).2.frontier := by
    cases hgoal : s.config.goal with
    | none =>
      have he : AStar.step eucl s = (none, s) := by
        simp [AStar.step, hgoal]
      rw [he]
      exact ⟨hnd, hsort⟩
    | some g =>
      rcases step_result_cases eucl s g hgoal with heq | ⟨next, s1, hs1, hres⟩
      · rw [heq]
        exact ⟨hnd, hsort⟩
      · have hbase : (s1.frontier.map Prod.fst).Nodup ∧
            List.Sorted frontier_ge s1.frontier := by
          rcases hs1 with ⟨-, -, rfl⟩ | ⟨c, pc, -, -, rfl⟩
          · exact ⟨hnd, hsort⟩
          · exact ⟨hdropnd, hdropsort⟩
        rcases hres with hres | ⟨l, mc, gc, mcost, -, hsf⟩
        · rw [hres]
          exact hbase
        · rw [hsf]
          constructor
          · have hperm : List.Perm
                (List.insertionSort frontier_ge
                  (l.foldl (relaxNeighbor eucl s.config mc gc mcost next)
                    (s1.world, s1.frontier)).2)
                (l.foldl (relaxNeighbor eucl s.config mc gc mcost next)
                  (s1.world, s1.frontier)).2 :=
              List.perm_insertionSort frontier_ge _
            exact ((hperm.map Prod.fst).nodup_iff).2
              (foldl_relax_fst_nodup eucl s.config mc gc mcost next l
                (s1.world, s1.frontier) hbase.1)
          · exact List.sorted_insertionSort frontier_ge _
  refine ⟨core.1, core.2, ?_, ?_⟩
  · intro l2 hl2 pr hpr
    exact sorted_getLast_min _ l2 core.2 hl2 pr hpr
  · intro c _ l2 hl2 pr hpr
    exact sorted_getLast_min _ l2 hsort hl2 pr hpr

/-- Claim C7 witness: after the first step on the 2x2 fixture the frontier
is duplicate-free, sorted, and min-at-end. -/
theorem frontier_invariant_witness :
    ((AStar.step euclid0 s0).2.frontier.map Prod.fst).Nodup ∧
    List.Sorted frontier_ge (AStar.step euclid0 s0).2.frontier ∧
    (∀ l2, (AStar.step euclid0 s0).2.frontier.getLast? = some l2 →
      ∀ pr ∈ (AStar.step euclid0 s0).2.frontier, l2.2 ≤ pr.2) ∧
    (∀ c, s0.current = some c → ∀ l2, s0.frontier.getLast? = some l2 →
      ∀ pr ∈ s0.frontier, l2.2 ≤ pr.2) :=
  frontier_invariant euclid0 s0 (by decide) (by decide)

end PathVis
